import Mathlib

/-!
Verification development for the bretzel-vscode layout-completion extension.

The definitions below are a shallow embedding of `src/extension.ts`
(`src/unnamed/part_000`, the current snapshot of the extension source):

* the prefix-gate regex `/(?:^|\b)(data[-\w]*)(?:['"])?$/` is embedded as a
  scanner over `List Char` (`scanTokP`, `dataMatchL`) that tries every
  word-boundary start position from the left, exactly as a JS regex engine
  resolves an end-anchored pattern;
* the tag-boundary and quote-parity gates, the replacement range, and the
  per-layout completion-item construction of `provideCompletionItems`
  are embedded in `provideCompletionItems` below (`insideTagGate`,
  `quoteGateSuppresses`, `mkItem`);
* the effective-global-attribute merge (root `globalAttributes` overridden
  field-by-field by the per-layout `globalAttributeDefaults` /
  legacy `globalAttributes` sequences, keyed by name, JS `Map` insertion
  semantics) is `effectiveGlobalsFor`;
* the schema loader `loadLayouts` is embedded as a total function over the
  outcome of the read+parse step (`ReadParseResult`): the `try/catch` in the
  source means every read or parse failure reaches the `.failure` branch;
* the `onDidChangeTextDocument` listener is embedded as the pure counting
  function `reopenRequestCount` from (language, batch of inserted texts,
  line text before the cursor) to the number of `triggerSuggest` requests.

Markdown-documentation rendering, `console.log` calls and the unused
active-layout detection are host-display concerns with no effect on the
returned data that the claims are about; the documentation's
effective-globals content is retained as the `docGlobals` field.
-/

/-- Character model of the single-quote character, kept out of literals. -/
def aposChar : Char := Char.ofNat 39

/-- JS `\w` without the `u` flag: ASCII letters, digits and underscore. -/
def isWordChar (c : Char) : Bool := c.isAlphanum || c == '_'

/-- Characters allowed in the matched token after the literal `data`:
the regex character class `[-\w]`. -/
def isTokenChar (c : Char) : Bool := c == '-' || isWordChar c

/-- Token character class as the specification words it: letters, digits or
hyphen only (no underscore). Used to compare the spec's description of the
prefix gate with the source regex. -/
def specTokenChar (c : Char) : Bool := c == '-' || c.isAlphanum

/-- Quote characters recognized by the optional trailing `(?:['"])?` group. -/
def isQuoteChar (c : Char) : Bool := c == '"' || c == aposChar

/-- Attempt of the anchored part `data<tc>*['"]?$` of the prefix regex at a
fixed start position: the token must begin with the literal `data`, continue
with the greedy run of token characters, optionally be followed by exactly one
quote character, and reach the end of the string. Returns the matched token
without its trailing quote (capture group 1). -/
def matchAtP (tc : Char → Bool) (s : List Char) : Option (List Char) :=
  match s with
  | c1 :: c2 :: c3 :: c4 :: rest =>
    if c1 = 'd' ∧ c2 = 'a' ∧ c3 = 't' ∧ c4 = 'a' then
      match rest.dropWhile tc with
      | [] => some (c1 :: c2 :: c3 :: c4 :: rest.takeWhile tc)
      | [c] =>
        if isQuoteChar c = true then some (c1 :: c2 :: c3 :: c4 :: rest.takeWhile tc)
        else none
      | _ => none
    else none
  | _ => none

/-- Left-to-right scan of all start positions, as a JS regex engine resolves
`(?:^|\b)(data<tc>*)(?:['"])?$`: the flag `bOk` records whether the current
position is the start of the string or is preceded by a non-word character
(the two ways the `(?:^|\b)` alternation can succeed before a word
character). -/
def scanTokP (tc : Char → Bool) : Bool → List Char → Option (List Char)
  | _, [] => none
  | bOk, c :: rest =>
    if bOk then
      match matchAtP tc (c :: rest) with
      | some t => some t
      | none => scanTokP tc (!isWordChar c) rest
    else scanTokP tc (!isWordChar c) rest

/-- Embedding of `linePrefix.match(/(?:^|\b)(data[-\w]*)(?:['"])?$/)`, returning
capture group 1 (the token without its trailing quote) when the regex
matches. -/
def dataMatchL (lp : List Char) : Option (List Char) :=
  scanTokP isTokenChar true lp

/-- Embedding of JS `String.prototype.lastIndexOf` for a single character:
`-1` when the character does not occur. -/
def lastIndexOfAux (c : Char) : List Char → Nat → Int → Int
  | [], _, acc => acc
  | x :: xs, i, acc => lastIndexOfAux c xs (i + 1) (if x = c then (i : Int) else acc)

/-- Last index of `c` in `s`, or `-1` when absent (JS `lastIndexOf`). -/
def lastIndexOfC (s : List Char) (c : Char) : Int := lastIndexOfAux c s 0 (-1)

/-- Tag-boundary gate: the last `<` of the document text before the cursor
must exist and come after the last `>` (source: `lastOpen === -1 ||
lastOpen < lastClose` returns `undefined`). -/
def insideTagGate (docTextBefore : String) : Bool :=
  let lastOpen := lastIndexOfC docTextBefore.data '<'
  let lastClose := lastIndexOfC docTextBefore.data '>'
  if lastOpen = -1 ∨ lastOpen < lastClose then false else true

/-- Quote-parity check on `between` (document text from the last `<` to the
cursor) with the just-typed-quote exception taken from the last character of
the line text before the cursor. -/
def insideQuotesCheck (between lineBefore : List Char) : Bool :=
  let singleQuotes := between.count aposChar
  let doubleQuotes := between.count '"'
  let justTypedQuote :=
    match lineBefore.getLast? with
    | some c => c == '"' || c == aposChar
    | none => false
  (singleQuotes % 2 == 1 || doubleQuotes % 2 == 1) && !justTypedQuote

/-- Quote-parity gate of `provideCompletionItems`: suppress when either quote
count between the last `<` and the cursor is odd, unless the character just
before the cursor is itself a quote. -/
def quoteGateSuppresses (docTextBefore : String) (lineBefore : List Char) : Bool :=
  insideQuotesCheck
    (docTextBefore.data.drop (lastIndexOfC docTextBefore.data '<').toNat)
    lineBefore

/-- One attribute descriptor of the layout schema. The source reads the
fields `name`, `value`, `description` and `defaultValue` (the `valueDefault`
and `default` aliases of the summary renderer are not populated by the data
model and are omitted). -/
structure AttributeDescriptor where
  name : String
  value : Option String := none
  description : Option String := none
  defaultValue : Option String := none
deriving DecidableEq

/-- One layout entry. The `attributes`, `properties` and `usage` fields feed
only the Markdown documentation text and are not modelled; the two
per-layout override sequences (`globalAttributeDefaults` and the legacy
`globalAttributes`) are the layout's global-attribute override sequence. -/
structure LayoutEntry where
  name : String
  label : String := ""
  globalAttributeDefaults : List AttributeDescriptor := []
  globalAttributes : List AttributeDescriptor := []
deriving DecidableEq

/-- The loaded schema: optional root-level global attributes plus the ordered
layout list (result shape of `loadLayouts`). -/
structure Schema where
  rootGlobalAttributes : Option (List AttributeDescriptor) := none
  layouts : List LayoutEntry := []
deriving DecidableEq

/-- Outcome of parsing `data/layouts.json`, after the read succeeded:
a JSON array of layouts, a JSON object (whose `globalAttributes` and
`layouts` fields are recorded only when they are arrays, `none`/`none`
otherwise), or any other JSON value (string, number, boolean, null). -/
inductive ParsedValue where
  | arr (layouts : List LayoutEntry)
  | obj (globalAttributes : Option (List AttributeDescriptor))
        (layouts : Option (List LayoutEntry))
  | primOrNull
deriving DecidableEq

/-- Outcome of the read+parse step of `loadLayouts`: `.failure` covers every
unreadable file and every content that does not parse as JSON (the paths that
throw inside the `try` block of the source). -/
inductive ReadParseResult where
  | failure
  | ok (v : ParsedValue)
deriving DecidableEq

/-- Embedding of `loadLayouts`. The source wraps everything in `try/catch`, so
the function is total: `.failure` takes the `catch` branch, the three parsed
shapes take the three `return` statements of the `try` block. -/
def loadLayouts : ReadParseResult → Schema
  | .failure => { rootGlobalAttributes := none, layouts := [] }
  | .ok (.arr ls) => { rootGlobalAttributes := none, layouts := ls }
  | .ok (.obj ga ls) => { rootGlobalAttributes := ga, layouts := ls.getD [] }
  | .ok .primOrNull => { rootGlobalAttributes := none, layouts := [] }

/-- JS `Map.prototype.set` on an insertion-ordered association list: an
existing key is updated in place, a new key is appended. -/
def jsMapSet (m : List (String × AttributeDescriptor)) (k : String)
    (v : AttributeDescriptor) : List (String × AttributeDescriptor) :=
  if m.any (fun p => p.1 = k) then
    m.map (fun p => if p.1 = k then (k, v) else p)
  else m ++ [(k, v)]

/-- JS `Map.prototype.get`. -/
def jsMapGet (m : List (String × AttributeDescriptor)) (k : String) :
    Option AttributeDescriptor :=
  (m.find? (fun p => p.1 = k)).map (·.2)

/-- Field-level merge `{ ...base, ...a }`: a field present on the override
replaces the base field, an absent override field keeps the base field. -/
def mergeDescriptor (base a : AttributeDescriptor) : AttributeDescriptor :=
  { name := a.name
  , value := a.value.orElse (fun _ => base.value)
  , description := a.description.orElse (fun _ => base.description)
  , defaultValue := a.defaultValue.orElse (fun _ => base.defaultValue) }

/-- Effective global attributes for one layout (`effectiveGlobalsMap` of the
source): seed the map with the root global attributes (entries with a truthy
`name`), then apply each entry of `globalAttributeDefaults` followed by the
legacy `globalAttributes` as a field-level merge keyed by name; an entry with
a falsy name takes the source's fallback branch, which stores the JS
stringification `"[object Object]"` of the entry. -/
def effectiveGlobalsFor (rootGlobals : List AttributeDescriptor)
    (l : LayoutEntry) : List (String × AttributeDescriptor) :=
  let m0 := rootGlobals.foldl
    (fun m a => if a.name ≠ "" then jsMapSet m a.name a else m) []
  (l.globalAttributeDefaults ++ l.globalAttributes).foldl
    (fun m a =>
      if a.name ≠ "" then
        match jsMapGet m a.name with
        | some base => jsMapSet m a.name (mergeDescriptor base a)
        | none => jsMapSet m a.name a
      else jsMapSet m "[object Object]" { name := "[object Object]" }) m0

/-- Cursor position: line number and character offset (vscode `Position`). -/
structure Pos where
  line : Nat
  character : Nat
deriving DecidableEq

/-- The data of one produced completion item that the claims are about:
visible label text, snippet insert text, filter text, sort key, pre-selection
flag, replacement range, and the effective-globals content rendered into the
item's documentation block. -/
structure CompletionItem where
  label : String
  insertText : String
  filterText : String
  sortText : String
  preselect : Bool
  rangeStart : Pos
  rangeEnd : Pos
  docGlobals : List (String × AttributeDescriptor)
deriving DecidableEq

/-- Construction of the completion item for one layout entry `l` (the body of
the `for (const l of layouts)` loop): label and filter text are the literal
`data-layout="<name>"`, the insert text is the snippet
`data-layout="${1:<name>}"`, the sort key is a NUL byte followed by
`_<name>`, the item is pre-selected, and the replacement range is the one
computed once per request. -/
def mkItem (rootGlobals : List AttributeDescriptor) (l : LayoutEntry)
    (replaceStart replaceEnd : Pos) : CompletionItem :=
  { label := "data-layout=\"" ++ l.name ++ "\""
  , insertText := "data-layout=\"$\x7b1:" ++ l.name ++ "\x7d\""
  , filterText := "data-layout=\"" ++ l.name ++ "\""
  , sortText := "\x00_" ++ l.name
  , preselect := true
  , rangeStart := replaceStart
  , rangeEnd := replaceEnd
  , docGlobals := effectiveGlobalsFor rootGlobals l }

/-- Embedding of `provideCompletionItems`: the line text is cut at the cursor
character, the prefix gate must match, the tag-boundary gate and the
quote-parity gate must pass, and then one item per layout entry is produced,
all sharing the replacement range from the cursor minus the matched token
length to the cursor. `none` models the source's `return undefined`. -/
def provideCompletionItems (schema : Schema) (lineText : String) (pos : Pos)
    (docTextBefore : String) : Option (List CompletionItem) :=
  match dataMatchL (lineText.data.take pos.character) with
  | none => none
  | some tok =>
    if insideTagGate docTextBefore = false then none
    else if quoteGateSuppresses docTextBefore (lineText.data.take pos.character) = true then none
    else
      some (schema.layouts.map (fun l =>
        mkItem (schema.rootGlobalAttributes.getD []) l
          ⟨pos.line, pos.character - tok.length⟩ pos))

/-- Languages for which both the completion provider and the change listener
are active. -/
def recognizedLanguages : List String := ["html", "vue", "markdown"]

/-- Inserted texts that make the change listener inspect the line: a hyphen
or a quote character. -/
def triggerInsertedText (t : String) : Bool :=
  t == "-" || t == "\"" || t == String.mk [aposChar]

/-- Test of `/\bdata-$/` on the reversed line text: the line must end with
the literal `data-` and the character before it, when present, must be a
non-word character (the `\b` anchor before a word character). -/
def endsWithDataHyphenR (r : List Char) : Bool :=
  match r with
  | c0 :: c1 :: c2 :: c3 :: c4 :: rest =>
    c0 == '-' && c1 == 'a' && c2 == 't' && c3 == 'a' && c4 == 'd' &&
      (rest.head?.all fun c => !isWordChar c)
  | _ => false

/-- Test of `/\bdata-$/` against the line text before the cursor. -/
def endsWithDataHyphen (lp : List Char) : Bool :=
  endsWithDataHyphenR lp.reverse

/-- Test used to state the negative half of the proactive-trigger claim: the
line text before the cursor ends with the literal `data` (no trailing
hyphen). -/
def endsWithDataWordR (r : List Char) : Bool :=
  match r with
  | c0 :: c1 :: c2 :: c3 :: _ => c0 == 'a' && c1 == 't' && c2 == 'a' && c3 == 'd'
  | _ => false

/-- Line text before the cursor ends with the literal `data`. -/
def endsWithDataWord (lp : List Char) : Bool :=
  endsWithDataWordR lp.reverse

/-- Embedding of the `onDidChangeTextDocument` listener as a pure counting
function: for a document of language `lang` and a batch of content-change
inserted texts, count the `editor.action.triggerSuggest` requests issued.
Each change whose inserted text is a hyphen or a quote, while the line text
up to the cursor matches `/\bdata-$/`, issues one request; unrecognized
languages issue none. -/
def reopenRequestCount (lang : String) (changes : List String)
    (lineBefore : List Char) : Nat :=
  if lang ∈ recognizedLanguages then
    (changes.filter fun t =>
      triggerInsertedText t && endsWithDataHyphen lineBefore).length
  else 0

/-- Demo layout used by concrete witnesses and counterexamples. -/
def demoLayout : LayoutEntry := { name := "duo", label := "Duo" }

/-- Demo schema with a single layout entry. -/
def demoSchema : Schema := { rootGlobalAttributes := none, layouts := [demoLayout] }

/-- Demo schema whose entry names are not in lexical order. -/
def demoSchemaBA : Schema :=
  { rootGlobalAttributes := none
  , layouts := [{ name := "b", label := "B" }, { name := "a", label := "A" }] }

/-- Well-formed token: the literal `data` followed by characters of the token
class `tc`. -/
def goodTokP (tc : Char → Bool) (p : List Char) : Prop :=
  ∃ ws, p = 'd' :: 'a' :: 't' :: 'a' :: ws ∧ ∀ c ∈ ws, tc c = true

/-- Optional trailing quote: empty or exactly one quote character. -/
def optQuote (q : List Char) : Prop :=
  q = [] ∨ ∃ c, q = [c] ∧ isQuoteChar c = true

/-- Declarative form of the prefix gate: the line text decomposes into some
text ending at a word boundary (start of line, or a non-word character),
a well-formed token, and an optional trailing quote reaching the end of the
string; `p` is the token without the quote. -/
def acceptedDecompP (tc : Char → Bool) (lp p : List Char) : Prop :=
  ∃ pre q, lp = pre ++ p ++ q ∧ goodTokP tc p ∧ optQuote q ∧
    (pre = [] ∨ ∃ c, pre.getLast? = some c ∧ isWordChar c = false)

theorem takeWhile_all {tc : Char → Bool} :
    ∀ {ws : List Char}, (∀ c ∈ ws, tc c = true) →
      ws.takeWhile tc = ws ∧ ws.dropWhile tc = [] := by
  intro ws
  induction ws with
  | nil => intro _; simp
  | cons c cs ih =>
    intro h
    have hc : tc c = true := h c (by simp)
    have := ih (fun d hd => h d (by simp [hd]))
    simp [List.takeWhile, List.dropWhile, hc, this.1, this.2]

theorem takeWhile_append_all {tc : Char → Bool} :
    ∀ {ws : List Char} (q : List Char), (∀ c ∈ ws, tc c = true) →
      (ws ++ q).takeWhile tc = ws ++ q.takeWhile tc ∧
      (ws ++ q).dropWhile tc = q.dropWhile tc := by
  intro ws
  induction ws with
  | nil => intro q _; simp
  | cons c cs ih =>
    intro q h
    have hc : tc c = true := h c (by simp)
    have := ih q (fun d hd => h d (by simp [hd]))
    simp [List.takeWhile, List.dropWhile, hc, this.1, this.2]

theorem matchAtP_sound {tc : Char → Bool} {s p : List Char}
    (h : matchAtP tc s = some p) :
    ∃ q, s = p ++ q ∧ goodTokP tc p ∧ optQuote q := by
  match s with
  | [] => simp [matchAtP] at h
  | [c1] => simp [matchAtP] at h
  | [c1, c2] => simp [matchAtP] at h
  | [c1, c2, c3] => simp [matchAtP] at h
  | c1 :: c2 :: c3 :: c4 :: rest =>
    rw [matchAtP] at h
    split at h
    · rename_i hd
      obtain ⟨h1, h2, h3, h4⟩ := hd
      subst h1; subst h2; subst h3; subst h4
      have hsplit := List.takeWhile_append_dropWhile (p := tc) (l := rest)
      have hmem : ∀ c ∈ rest.takeWhile tc, tc c = true :=
        fun c hc => List.mem_takeWhile_imp hc
      split at h
      · rename_i hdw
        rw [Option.some_inj] at h
        have hr := hsplit
        rw [hdw, List.append_nil] at hr
        refine ⟨[], ?_, ?_, Or.inl rfl⟩
        · rw [← h, List.append_nil]
          exact congrArg (fun t => 'd' :: 'a' :: 't' :: 'a' :: t) hr.symm
        · exact ⟨rest.takeWhile tc, h.symm, hmem⟩
      · rename_i c hdw
        split at h
        · rename_i hq
          rw [Option.some_inj] at h
          have hr := hsplit
          rw [hdw] at hr
          refine ⟨[c], ?_, ?_, Or.inr ⟨c, rfl, hq⟩⟩
          · rw [← h]
            simp only [List.cons_append]
            exact congrArg (fun t => 'd' :: 'a' :: 't' :: 'a' :: t) hr.symm
          · exact ⟨rest.takeWhile tc, h.symm, hmem⟩
        · exact absurd h (by simp)
      · exact absurd h (by simp)
    · exact absurd h (by simp)

theorem matchAtP_complete {tc : Char → Bool}
    (hq : ∀ c, isQuoteChar c = true → tc c = false)
    {p q : List Char} (hp : goodTokP tc p) (hqq : optQuote q) :
    (matchAtP tc (p ++ q)).isSome = true := by
  obtain ⟨ws, hpe, hws⟩ := hp
  subst hpe
  rcases hqq with hq0 | ⟨c, hq1, hq2⟩
  · subst hq0
    rw [List.append_nil]
    simp only [matchAtP]
    rw [if_pos (by trivial), (takeWhile_all hws).2]
    simp
  · subst hq1
    have hc : tc c = false := hq c hq2
    have hsp := takeWhile_append_all [c] hws
    rw [show ('d' :: 'a' :: 't' :: 'a' :: ws) ++ [c]
          = 'd' :: 'a' :: 't' :: 'a' :: (ws ++ [c]) from by simp]
    simp only [matchAtP]
    rw [if_pos (by trivial), hsp.2]
    simp [List.dropWhile, hc, hq2]

theorem getLast?_cons_cases {c d : Char} {pre : List Char}
    (hd : (c :: pre).getLast? = some d) :
    (pre = [] ∧ d = c) ∨ pre.getLast? = some d := by
  cases pre with
  | nil =>
    refine Or.inl ⟨rfl, ?_⟩
    simpa using hd.symm
  | cons e pre2 =>
    rw [List.getLast?_cons_cons] at hd
    exact Or.inr hd

theorem scanTokP_sound {tc : Char → Bool} :
    ∀ (lp : List Char) (bOk : Bool) (p : List Char),
      scanTokP tc bOk lp = some p →
      ∃ pre q, lp = pre ++ p ++ q ∧ goodTokP tc p ∧ optQuote q ∧
        (pre = [] → bOk = true) ∧
        (∀ c, pre.getLast? = some c → isWordChar c = false) := by
  intro lp
  induction lp with
  | nil => intro bOk p h; simp [scanTokP] at h
  | cons c rest ih =>
    intro bOk p h
    rw [scanTokP] at h
    have hstep :
        scanTokP tc (!isWordChar c) rest = some p →
        ∃ pre q, c :: rest = pre ++ p ++ q ∧ goodTokP tc p ∧ optQuote q ∧
          (pre = [] → bOk = true) ∧
          (∀ d, pre.getLast? = some d → isWordChar d = false) := by
      intro hr
      obtain ⟨pre, q, he, hg, hoq, hpre, hlast⟩ := ih (!isWordChar c) p hr
      refine ⟨c :: pre, q, by simp [he], hg, hoq, by simp, ?_⟩
      intro d hd
      rcases getLast?_cons_cases hd with ⟨hnil, hdc⟩ | htail
      · subst hdc
        have : (!isWordChar d) = true := hpre hnil
        simpa using this
      · exact hlast d htail
    by_cases hb : bOk = true
    · rw [if_pos hb] at h
      cases hm : matchAtP tc (c :: rest) with
      | some t =>
        rw [hm] at h
        rw [Option.some_inj] at h
        subst h
        obtain ⟨q, hsq, hg, hoq⟩ := matchAtP_sound hm
        exact ⟨[], q, by simpa using hsq, hg, hoq, fun _ => hb, by simp⟩
      | none =>
        rw [hm] at h
        exact hstep h
    · rw [if_neg hb] at h
      exact hstep h

theorem scanTokP_complete {tc : Char → Bool}
    (hq : ∀ c, isQuoteChar c = true → tc c = false) :
    ∀ (pre p q lp : List Char) (bOk : Bool),
      lp = pre ++ p ++ q → goodTokP tc p → optQuote q →
      (pre = [] → bOk = true) →
      (∀ c, pre.getLast? = some c → isWordChar c = false) →
      (scanTokP tc bOk lp).isSome = true := by
  intro pre
  induction pre with
  | nil =>
    intro p q lp bOk he hg hoq hb _
    have hbt : bOk = true := hb rfl
    subst hbt
    simp only [List.nil_append] at he
    subst he
    have hm := matchAtP_complete hq hg hoq
    obtain ⟨ws, hpe, _⟩ := hg
    subst hpe
    rw [show ('d' :: 'a' :: 't' :: 'a' :: ws) ++ q
          = 'd' :: ('a' :: 't' :: 'a' :: ws ++ q) from by simp] at hm ⊢
    rw [scanTokP, if_pos rfl]
    cases hmm : matchAtP tc ('d' :: ('a' :: 't' :: 'a' :: ws ++ q)) with
    | some t => simp
    | none =>
      rw [hmm] at hm
      simp at hm
  | cons c pre2 ih =>
    intro p q lp bOk he hg hoq _ hlast
    subst he
    rw [show (c :: pre2) ++ p ++ q = c :: (pre2 ++ p ++ q) from by simp]
    rw [scanTokP]
    have hrec : (scanTokP tc (!isWordChar c) (pre2 ++ p ++ q)).isSome = true := by
      refine ih p q _ (!isWordChar c) rfl hg hoq ?_ ?_
      · intro hp2
        subst hp2
        have : isWordChar c = false := hlast c (by simp)
        simp [this]
      · intro d hd
        cases pre2 with
        | nil => simp at hd
        | cons e pre3 =>
          refine hlast d ?_
          rw [List.getLast?_cons_cons]
          exact hd
    by_cases hb2 : bOk = true
    · rw [if_pos hb2]
      cases hmm : matchAtP tc (c :: (pre2 ++ p ++ q)) with
      | some t => simp
      | none => exact hrec
    · rw [if_neg hb2]
      exact hrec

theorem acceptedDecompP_isSome {tc : Char → Bool}
    (hq : ∀ c, isQuoteChar c = true → tc c = false)
    {lp p : List Char} (h : acceptedDecompP tc lp p) :
    (scanTokP tc true lp).isSome = true := by
  obtain ⟨pre, q, he, hg, hoq, hbd⟩ := h
  refine scanTokP_complete hq pre p q lp true he hg hoq (fun _ => rfl) ?_
  intro c hc
  rcases hbd with hnil | ⟨d, hd, hdw⟩
  · subst hnil; simp at hc
  · rw [hc] at hd
    rw [Option.some_inj] at hd
    rw [← hd] at hdw
    exact hdw

theorem isTokenChar_not_quote : ∀ c, isQuoteChar c = true → isTokenChar c = false := by
  intro c hc
  have h2 : c = '"' ∨ c = aposChar := by simpa [isQuoteChar] using hc
  rcases h2 with h | h <;> rw [h] <;> decide

theorem specTokenChar_not_quote : ∀ c, isQuoteChar c = true → specTokenChar c = false := by
  intro c hc
  have h2 : c = '"' ∨ c = aposChar := by simpa [isQuoteChar] using hc
  rcases h2 with h | h <;> rw [h] <;> decide

theorem provideCompletionItems_eq_some {schema : Schema} {lineText : String}
    {pos : Pos} {docText : String} {items : List CompletionItem}
    (h : provideCompletionItems schema lineText pos docText = some items) :
    ∃ tok, dataMatchL (lineText.data.take pos.character) = some tok ∧
      insideTagGate docText = true ∧
      quoteGateSuppresses docText (lineText.data.take pos.character) = false ∧
      items = schema.layouts.map (fun l =>
        mkItem (schema.rootGlobalAttributes.getD []) l
          ⟨pos.line, pos.character - tok.length⟩ pos) := by
  unfold provideCompletionItems at h
  split at h
  · simp at h
  · rename_i tok hm
    refine ⟨tok, hm, ?_⟩
    split at h
    · simp at h
    · rename_i hg1
      split at h
      · simp at h
      · rename_i hg2
        have hg1t : insideTagGate docText = true := by
          cases hgv : insideTagGate docText
          · exact absurd hgv hg1
          · rfl
        have hg2f : quoteGateSuppresses docText (lineText.data.take pos.character) = false := by
          cases hgv : quoteGateSuppresses docText (lineText.data.take pos.character)
          · rfl
          · exact absurd hgv hg2
        rw [Option.some_inj] at h
        exact ⟨hg1t, hg2f, h.symm⟩

theorem noneOfGateFail {schema : Schema} {lineText : String} {pos : Pos}
    {docText : String}
    (h : dataMatchL (lineText.data.take pos.character) = none) :
    provideCompletionItems schema lineText pos docText = none := by
  unfold provideCompletionItems
  rw [h]

theorem sortKey_lt_iff (n1 n2 : String) :
    ("\x00_" ++ n1 < "\x00_" ++ n2) ↔ n1 < n2 := by
  rw [String.lt_iff_toList_lt, String.lt_iff_toList_lt]
  have h1 : ("\x00_" ++ n1).toList = '\x00' :: '_' :: n1.toList := by
    simp [String.toList, String.data_append]
  have h2 : ("\x00_" ++ n2).toList = '\x00' :: '_' :: n2.toList := by
    simp [String.toList, String.data_append]
  rw [h1, h2]
  exact List.Lex.cons_iff.trans List.Lex.cons_iff

theorem sortKey_lt_other (n s : String) (c : Char) (cs : List Char)
    (hs : s.data = c :: cs) (hc : c ≠ '\x00') : ("\x00_" ++ n) < s := by
  rw [String.lt_iff_toList_lt]
  have h1 : ("\x00_" ++ n).toList = '\x00' :: '_' :: n.toList := by
    simp [String.toList, String.data_append]
  have h2 : s.toList = c :: cs := hs
  rw [h1, h2]
  exact List.Lex.rel (lt_of_le_of_ne (Nat.zero_le _) (Ne.symm hc))

theorem endsWithDataWordR_excl (r : List Char)
    (h : endsWithDataWordR r = true) : endsWithDataHyphenR r = false := by
  rcases r with _ | ⟨c0, _ | ⟨c1, _ | ⟨c2, _ | ⟨c3, r4⟩⟩⟩⟩ <;>
    simp [endsWithDataWordR] at h
  rcases r4 with _ | ⟨c4, rest⟩
  · rfl
  · simp_all [endsWithDataHyphenR]

/-- Root global attributes of the merge scenario: `data-gap` with example
value `1rem`. -/
def gapRootGlobals : List AttributeDescriptor :=
  [{ name := "data-gap", value := some "1rem" }]

/-- Layout `duo` overriding `data-gap` with a default value only. -/
def duoLayoutGap : LayoutEntry :=
  { name := "duo"
  , globalAttributeDefaults := [{ name := "data-gap", defaultValue := some "0.5rem" }] }

/-- Schema combining the root `data-gap` definition with the `duo` layout. -/
def duoSchemaGap : Schema :=
  { rootGlobalAttributes := some gapRootGlobals, layouts := [duoLayoutGap] }

/-- Expected field-level merge result for `data-gap`. -/
def gapMergedEntry : AttributeDescriptor :=
  { name := "data-gap", value := some "1rem", defaultValue := some "0.5rem" }

/-- Items produced for the schema whose entry names are out of lexical
order. -/
def demoItemsBA : List CompletionItem :=
  demoSchemaBA.layouts.map (fun l => mkItem [] l ⟨0, 3⟩ ⟨0, 7⟩)

/-- C1: for a layout named `duo`, root global attributes
`[data-gap value "1rem"]` and the layout override `[data-gap defaultValue
"0.5rem"]`, the effective global set built during suggestion construction
contains exactly one entry keyed `data-gap`, with value `1rem` taken from
the base and default value `0.5rem` taken from the override (field-level
merge keyed by name, last write wins); the same merged set is what the
produced suggestion for `duo` carries into its documentation. -/
theorem effectiveGlobals_duo_merge :
    effectiveGlobalsFor gapRootGlobals duoLayoutGap = [("data-gap", gapMergedEntry)]
    ∧ ((provideCompletionItems duoSchemaGap "<p data" ⟨0, 7⟩ "<p data").getD []).map
        CompletionItem.docGlobals = [[("data-gap", gapMergedEntry)]] :=
  ⟨by decide, by decide⟩

/-- C2: on every unreadable or unparseable source the loader returns the
schema with an empty layout sequence and absent global attributes; the
embedding is a total function, so no exception can escape its boundary. -/
theorem loadLayouts_failure_empty :
    loadLayouts ReadParseResult.failure = { rootGlobalAttributes := none, layouts := [] } := rfl

/-- C3 (amended): every produced suggestion's sort key is the zero byte
followed by text derived from the entry name (`"\x00_" ++ name`); every such
key sorts lexically before any nonempty key that does not start with the
zero byte (any suggestion from another source); and the lexical order of the
produced sort keys equals the lexical order of the entry names — hence it
coincides with the schema's original entry order exactly when the names are
listed in lexical order, not for every schema. -/
theorem suggestion_sort_keys (schema : Schema) (lineText : String) (pos : Pos)
    (docText : String) (items : List CompletionItem)
    (h : provideCompletionItems schema lineText pos docText = some items) :
    items.length = schema.layouts.length
    ∧ (∀ (i : Nat) (hi : i < items.length) (hl : i < schema.layouts.length),
        (items.get ⟨i, hi⟩).sortText = "\x00_" ++ (schema.layouts.get ⟨i, hl⟩).name)
    ∧ (∀ it ∈ items, ∀ (s : String) (c : Char) (cs : List Char),
        s.data = c :: cs → c ≠ '\x00' → it.sortText < s)
    ∧ (∀ (i j : Nat) (hi : i < items.length) (hj : j < items.length)
        (hli : i < schema.layouts.length) (hlj : j < schema.layouts.length),
        ((items.get ⟨i, hi⟩).sortText < (items.get ⟨j, hj⟩).sortText
          ↔ (schema.layouts.get ⟨i, hli⟩).name < (schema.layouts.get ⟨j, hlj⟩).name)) := by
  obtain ⟨tok, _, _, _, hitems⟩ := provideCompletionItems_eq_some h
  subst hitems
  refine ⟨by simp, ?_, ?_, ?_⟩
  · intro i hi hl
    simp [List.get_eq_getElem, List.getElem_map, mkItem]
  · intro it hit s c cs hs hc
    obtain ⟨l, _, rfl⟩ := List.mem_map.mp hit
    exact sortKey_lt_other l.name s c cs hs hc
  · intro i j hi hj hli hlj
    simp only [List.get_eq_getElem, List.getElem_map, mkItem]
    exact sortKey_lt_iff _ _

/-- Witness for C3: applying the theorem to a concrete request over the
two-layout schema. -/
theorem suggestion_sort_keys_witness :
    demoItemsBA.length = demoSchemaBA.layouts.length :=
  (suggestion_sort_keys demoSchemaBA "<p data" ⟨0, 7⟩ "<p data" demoItemsBA (by decide)).1

/-- Counterexample for C3 as stated: for the schema listing entry `b` before
entry `a`, the produced sort keys are `"\x00_b", "\x00_a"` in schema order,
and the first does not sort before the second — the lexical order of the
keys does not equal the schema's entry order for every schema. -/
theorem sortKeys_schema_order_counterexample :
    ((provideCompletionItems demoSchemaBA "<p data" ⟨0, 7⟩ "<p data").getD []).map
        CompletionItem.sortText = ["\x00_b", "\x00_a"]
    ∧ ¬ (("\x00_b" : String) < "\x00_a") := by
  constructor
  · decide
  · rw [String.lt_iff_toList_lt]
    decide

/-- Counterexample for C4 as stated: with line and document text exactly
`<section class="data-l"` and the cursor at end of line, the quote counts
are even (two double quotes), so the quote-parity gate does not suppress
and suggestions are produced, contradicting the claimed `none`. -/
theorem quote_parity_even_counterexample :
    (provideCompletionItems demoSchema "<section class=\"data-l\"" ⟨0, 23⟩
      "<section class=\"data-l\"").isSome = true := by decide

/-- C4 (amended): with line and document text exactly `<section
class="data-l` (no closing quote: one double quote, odd parity, last
character not a quote) and the cursor at end of line, suggestions are
suppressed by the quote-parity gate for every schema. -/
theorem quote_parity_suppression (schema : Schema) :
    provideCompletionItems schema "<section class=\"data-l" ⟨0, 22⟩
      "<section class=\"data-l" = none := rfl

/-- Counterexample for C5 as stated: with line and document text exactly
`<section data-layout="` and the cursor at end, the prefix gate fails (the
`=` sits between the token and the quote, so the end-anchored regex cannot
match) and no suggestions are returned even for a schema with one layout. -/
theorem just_typed_quote_counterexample :
    provideCompletionItems demoSchema "<section data-layout=\"" ⟨0, 22⟩
      "<section data-layout=\"" = none := by decide

/-- C5 (amended): for every schema with at least one layout, with line and
document text exactly `<section data-"` and the cursor at end (quote count
odd, character immediately before the cursor a quote, and the quote directly
after the `data-` token so the prefix gate matches), a non-empty suggestion
list is returned: the just-typed-quote exception overrides the quote-parity
gate. -/
theorem just_typed_quote_exception (schema : Schema) (h : schema.layouts ≠ []) :
    ∃ items, provideCompletionItems schema "<section data-\"" ⟨0, 15⟩
        "<section data-\"" = some items ∧ items ≠ [] := by
  refine ⟨_, rfl, ?_⟩
  simpa using h

/-- Witness for C5: the amended theorem applied to the one-layout schema. -/
theorem just_typed_quote_exception_witness :
    ∃ items, provideCompletionItems demoSchema "<section data-\"" ⟨0, 15⟩
        "<section data-\"" = some items ∧ items ≠ [] :=
  just_typed_quote_exception demoSchema (by decide)

/-- C6: whenever suggestions are produced, every item's replacement span
ends exactly at the cursor position and starts exactly at the cursor
position minus the length of the prefix matched by the prefix gate (the
token without its trailing quote); all items of one result share that
span. -/
theorem replacement_span_exact (schema : Schema) (lineText : String) (pos : Pos)
    (docText : String) (tok : List Char) (items : List CompletionItem)
    (hm : dataMatchL (lineText.data.take pos.character) = some tok)
    (h : provideCompletionItems schema lineText pos docText = some items) :
    ∀ it ∈ items,
      it.rangeStart = ⟨pos.line, pos.character - tok.length⟩ ∧ it.rangeEnd = pos := by
  obtain ⟨tok2, hm2, _, _, hitems⟩ := provideCompletionItems_eq_some h
  rw [hm] at hm2
  rw [Option.some_inj] at hm2
  subst hm2
  subst hitems
  intro it hit
  obtain ⟨l, _, rfl⟩ := List.mem_map.mp hit
  exact ⟨rfl, rfl⟩

/-- Witness for C6: the theorem applied to a concrete request (`<p data`
with the cursor at character 7: the matched token `data` has length 4, so
the span runs from character 3 to character 7). -/
theorem replacement_span_exact_witness :
    (mkItem [] demoLayout ⟨0, 3⟩ ⟨0, 7⟩).rangeStart = ⟨0, 3⟩ ∧
    (mkItem [] demoLayout ⟨0, 3⟩ ⟨0, 7⟩).rangeEnd = ⟨0, 7⟩ :=
  replacement_span_exact demoSchema "<p data" ⟨0, 7⟩ "<p data" ("data".data)
    [mkItem [] demoLayout ⟨0, 3⟩ ⟨0, 7⟩] (by decide) (by decide)
    (mkItem [] demoLayout ⟨0, 3⟩ ⟨0, 7⟩) (by decide)

/-- C7: every produced suggestion is built from some layout entry of the
schema, its visible label and filter text are both exactly
`data-layout="<name>"`, and the snippet insert text embeds the same name
as the placeholder content. -/
theorem label_filter_insert_agree (schema : Schema) (lineText : String) (pos : Pos)
    (docText : String) (items : List CompletionItem)
    (h : provideCompletionItems schema lineText pos docText = some items) :
    ∀ it ∈ items, ∃ l ∈ schema.layouts,
      it.label = "data-layout=\"" ++ l.name ++ "\"" ∧
      it.filterText = it.label ∧
      it.insertText = "data-layout=\"$\x7b1:" ++ l.name ++ "\x7d\"" := by
  obtain ⟨tok, _, _, _, hitems⟩ := provideCompletionItems_eq_some h
  subst hitems
  intro it hit
  obtain ⟨l, hl, rfl⟩ := List.mem_map.mp hit
  exact ⟨l, hl, rfl, rfl, rfl⟩

/-- Witness for C7: the theorem applied to a concrete request over the
one-layout schema. -/
theorem label_filter_insert_agree_witness :
    ∃ l ∈ demoSchema.layouts,
      (mkItem [] demoLayout ⟨0, 3⟩ ⟨0, 7⟩).label = "data-layout=\"" ++ l.name ++ "\"" ∧
      (mkItem [] demoLayout ⟨0, 3⟩ ⟨0, 7⟩).filterText = (mkItem [] demoLayout ⟨0, 3⟩ ⟨0, 7⟩).label ∧
      (mkItem [] demoLayout ⟨0, 3⟩ ⟨0, 7⟩).insertText
        = "data-layout=\"$\x7b1:" ++ l.name ++ "\x7d\"" :=
  label_filter_insert_agree demoSchema "<p data" ⟨0, 7⟩ "<p data"
    [mkItem [] demoLayout ⟨0, 3⟩ ⟨0, 7⟩] (by decide)
    (mkItem [] demoLayout ⟨0, 3⟩ ⟨0, 7⟩) (by decide)

/-- C8: for a batch containing exactly one insertion whose text is a hyphen,
on a recognized document type, exactly one reopen request is issued when the
line text up to the cursor matches the word-boundary-anchored `data-` test,
and none when the line text ends in `data` without the trailing hyphen. -/
theorem proactive_trigger_counts (lang : String) (lp : List Char)
    (hlang : lang ∈ recognizedLanguages) :
    (endsWithDataHyphen lp = true → reopenRequestCount lang ["-"] lp = 1)
    ∧ (endsWithDataWord lp = true → reopenRequestCount lang ["-"] lp = 0) := by
  constructor
  · intro hh
    unfold reopenRequestCount
    rw [if_pos hlang]
    simp [triggerInsertedText, hh]
  · intro hw
    have hh : endsWithDataHyphen lp = false := endsWithDataWordR_excl lp.reverse hw
    unfold reopenRequestCount
    rw [if_pos hlang]
    simp [triggerInsertedText, hh]

/-- Witness for C8: one request for `<p data-`, no request for `<p data`,
both on an html document. -/
theorem proactive_trigger_counts_witness :
    reopenRequestCount "html" ["-"] ("<p data-".data) = 1 ∧
    reopenRequestCount "html" ["-"] ("<p data".data) = 0 :=
  ⟨(proactive_trigger_counts "html" ("<p data-".data) (by decide)).1 (by decide),
   (proactive_trigger_counts "html" ("<p data".data) (by decide)).2 (by decide)⟩

/-- C9 (amended): the prefix gate accepts exactly the line prefixes that end
in a token consisting of the literal `data` followed only by word characters
(letters, digits, underscores) or hyphens, starting at a word boundary or
start of line, optionally followed by a single trailing quote anchored at
the end; on a match the replaced prefix is that token without its trailing
quote, and when no such decomposition exists the whole provider returns
none. -/
theorem dataMatch_characterization :
    (∀ (lp p : List Char), dataMatchL lp = some p → acceptedDecompP isTokenChar lp p)
    ∧ (∀ (lp : List Char), (∃ p, acceptedDecompP isTokenChar lp p) →
        (dataMatchL lp).isSome = true)
    ∧ (∀ (schema : Schema) (lineText : String) (pos : Pos) (docText : String),
        dataMatchL (lineText.data.take pos.character) = none →
        provideCompletionItems schema lineText pos docText = none) := by
  refine ⟨?_, ?_, ?_⟩
  · intro lp p h
    obtain ⟨pre, q, he, hg, hoq, hpre, hlast⟩ := scanTokP_sound lp true p h
    refine ⟨pre, q, he, hg, hoq, ?_⟩
    cases pre with
    | nil => exact Or.inl rfl
    | cons c pre2 =>
      have hne : c :: pre2 ≠ ([] : List Char) := by simp
      have hq2 : ((c :: pre2).getLast?).isSome := List.getLast?_isSome.mpr hne
      obtain ⟨d, hd⟩ := Option.isSome_iff_exists.mp hq2
      exact Or.inr ⟨d, hd, hlast d hd⟩
  · rintro lp ⟨p, hp⟩
    exact acceptedDecompP_isSome isTokenChar_not_quote hp
  · intro schema lineText pos docText h
    exact noneOfGateFail h

/-- Witness for C9: the line `<p data-` decomposes with matched token
`data-`, obtained by applying the characterization to the concrete match. -/
theorem dataMatch_characterization_witness :
    acceptedDecompP isTokenChar ("<p data-".data) ("data-".data) :=
  dataMatch_characterization.1 ("<p data-".data) ("data-".data) (by decide)

/-- Counterexample for C9 as stated: the line `<p data_` is accepted by the
source regex (underscore is a `\w` character, the provider returns
suggestions), yet it has no decomposition into a token of only letters,
digits and hyphens as the claim characterizes the gate. -/
theorem dataMatch_underscore_counterexample :
    (provideCompletionItems demoSchema "<p data_" ⟨0, 8⟩ "<p data_").isSome = true
    ∧ ¬ (∃ p, acceptedDecompP specTokenChar ("<p data_".data) p) := by
  constructor
  · decide
  · rintro ⟨p, hp⟩
    have h1 := acceptedDecompP_isSome specTokenChar_not_quote hp
    rw [show scanTokP specTokenChar true ("<p data_".data) = none from by decide] at h1
    simp at h1

/-- C10: when the prefix gate matches, the tag gate passes and the quote
gate does not suppress, a schema with an empty layout sequence yields
`some []` — the empty suggestion list, not the `none` of a failed gate. -/
theorem empty_schema_empty_items (lineText : String) (pos : Pos) (docText : String)
    (tok : List Char)
    (hm : dataMatchL (lineText.data.take pos.character) = some tok)
    (ht : insideTagGate docText = true)
    (hs : quoteGateSuppresses docText (lineText.data.take pos.character) = false)
    (schema : Schema) (hl : schema.layouts = []) :
    provideCompletionItems schema lineText pos docText = some [] := by
  simp only [provideCompletionItems, hm]
  rw [if_neg (by simp [ht]), if_neg (by simp [hs]), hl]
  rfl

/-- Witness for C10: the empty schema on the passing request `<p data`. -/
theorem empty_schema_empty_items_witness :
    provideCompletionItems { rootGlobalAttributes := none, layouts := [] }
      "<p data" ⟨0, 7⟩ "<p data" = some [] :=
  empty_schema_empty_items "<p data" ⟨0, 7⟩ "<p data" ("data".data) (by decide) (by decide)
    (by decide) _ rfl
